import Mathlib

/-!
Verification development for the application-command core of the repository:
the option transcoder (`transformOption`), the schema equality engine
(`equals` / `optionsEqual` / `_optionEquals`) and the invocation encoder
(`sendSlashCommand` / `sendContextMenu`) of
`src/structures/ApplicationCommand.js`, shallowly embedded in Lean.

Modelling conventions:
* JavaScript numbers are modelled as integers (`Int`) plus an explicit `nan`
  marker; the inputs of interest (snowflake ids, type codes, integer option
  values) are integral, and fractional literals are out of scope.
* A JavaScript object field that may be absent is an `Option` field; reading
  an absent field yields `undefined`, modelled by `none` / `JSVal.novalue`.
* Thrown exceptions are modelled by an explicit error result (`JSErr`),
  distinguishing `TypeError` from plain `Error`.
-/

namespace DJS

/-- Modelled from the spec: the command-kind enumeration
(`ApplicationCommandTypes` in `util/Constants.js`, which is not part of the
provided sources). The spec names the three kinds chat-input / user-target /
message-target; the wire codes 1/2/3 are those of the application-command
wire format that the source file references. -/
inductive CommandType where
  | CHAT_INPUT
  | USER
  | MESSAGE
deriving DecidableEq, Repr

/-- Wire code of a command kind (`ApplicationCommandTypes[name]`). -/
def CommandType.toCode : CommandType → Nat
  | .CHAT_INPUT => 1
  | .USER => 2
  | .MESSAGE => 3

/-- Symbolic name of a command-kind wire code (`ApplicationCommandTypes[n]`),
`none` when the code is not in the enumeration. -/
def commandTypeOfCode : Nat → Option CommandType
  | 1 => some .CHAT_INPUT
  | 2 => some .USER
  | 3 => some .MESSAGE
  | _ => none

/-- Modelled from the spec: the option-type enumeration
(`ApplicationCommandOptionTypes` in `util/Constants.js`, not part of the
provided sources). The spec lists exactly these eleven declared types. -/
inductive OptionType where
  | SUB_COMMAND
  | SUB_COMMAND_GROUP
  | STRING
  | INTEGER
  | BOOLEAN
  | USER
  | CHANNEL
  | ROLE
  | MENTIONABLE
  | NUMBER
  | ATTACHMENT
deriving DecidableEq, Repr

/-- Wire code of an option type (`ApplicationCommandOptionTypes[name]`). -/
def OptionType.toCode : OptionType → Nat
  | .SUB_COMMAND => 1
  | .SUB_COMMAND_GROUP => 2
  | .STRING => 3
  | .INTEGER => 4
  | .BOOLEAN => 5
  | .USER => 6
  | .CHANNEL => 7
  | .ROLE => 8
  | .MENTIONABLE => 9
  | .NUMBER => 10
  | .ATTACHMENT => 11

/-- Symbolic name of an option-type wire code
(`ApplicationCommandOptionTypes[n]`), `none` when out of range. -/
def optionTypeOfCode : Nat → Option OptionType
  | 1 => some .SUB_COMMAND
  | 2 => some .SUB_COMMAND_GROUP
  | 3 => some .STRING
  | 4 => some .INTEGER
  | 5 => some .BOOLEAN
  | 6 => some .USER
  | 7 => some .CHANNEL
  | 8 => some .ROLE
  | 9 => some .MENTIONABLE
  | 10 => some .NUMBER
  | 11 => some .ATTACHMENT
  | _ => none

/-- Modelled from the spec: the channel-type enumeration (`ChannelTypes` in
`util/Constants.js`, not part of the provided sources); the spec only
requires an integer-to-symbolic bijection used by the channel-type filter. -/
inductive ChannelType where
  | GUILD_TEXT
  | DM
  | GUILD_VOICE
  | GROUP_DM
  | GUILD_CATEGORY
  | GUILD_NEWS
  | GUILD_STORE
  | GUILD_NEWS_THREAD
  | GUILD_PUBLIC_THREAD
  | GUILD_PRIVATE_THREAD
  | GUILD_STAGE_VOICE
deriving DecidableEq, Repr

/-- Wire code of a channel type (`ChannelTypes[name]`). -/
def ChannelType.toCode : ChannelType → Nat
  | .GUILD_TEXT => 0
  | .DM => 1
  | .GUILD_VOICE => 2
  | .GROUP_DM => 3
  | .GUILD_CATEGORY => 4
  | .GUILD_NEWS => 5
  | .GUILD_STORE => 6
  | .GUILD_NEWS_THREAD => 10
  | .GUILD_PUBLIC_THREAD => 11
  | .GUILD_PRIVATE_THREAD => 12
  | .GUILD_STAGE_VOICE => 13

/-- Symbolic name of a channel-type wire code (`ChannelTypes[n]`). -/
def channelTypeOfCode : Nat → Option ChannelType
  | 0 => some .GUILD_TEXT
  | 1 => some .DM
  | 2 => some .GUILD_VOICE
  | 3 => some .GROUP_DM
  | 4 => some .GUILD_CATEGORY
  | 5 => some .GUILD_NEWS
  | 6 => some .GUILD_STORE
  | 10 => some .GUILD_NEWS_THREAD
  | 11 => some .GUILD_PUBLIC_THREAD
  | 12 => some .GUILD_PRIVATE_THREAD
  | 13 => some .GUILD_STAGE_VOICE
  | _ => none

/-- Values a JavaScript expression of this core can take: strings, integral
numbers, `NaN`, booleans and `undefined`. -/
inductive JSVal where
  | str (s : String)
  | num (n : Int)
  | nan
  | bool (b : Bool)
  | novalue
deriving DecidableEq, Repr

/-- Truthiness of a value (JavaScript `Boolean(v)` / `if (v)`). -/
def JSVal.truthy : JSVal → Bool
  | .str s => s ≠ ""
  | .num n => n ≠ 0
  | .nan => false
  | .bool b => b
  | .novalue => false

/-- JavaScript `Number(s)` / `ToNumber` on a string, restricted to integral
literals: the empty string converts to `0`, an optionally signed digit string
to its value, anything else to `NaN`. -/
def jsStrToNumber (s : String) : JSVal :=
  if s = "" then .num 0
  else
    match s.toInt? with
    | some n => .num n
    | none => .nan

/-- JavaScript strict equality `===` on values; `NaN` is unequal to
everything, including itself. -/
def jsStrictEq (a b : JSVal) : Bool :=
  match a, b with
  | .nan, _ => false
  | _, .nan => false
  | x, y => x = y

/-- JavaScript loose equality `v == s` between a value and a string: strings
compare by content, a number compares with `ToNumber` of the string, a
boolean converts to a number first, `NaN` and `undefined` match nothing. -/
def jsLooseEqValStr (v : JSVal) (s : String) : Bool :=
  match v with
  | .str t => t = s
  | .num n => jsStrToNumber s = .num n
  | .nan => false
  | .bool b => jsStrToNumber s = .num (if b then 1 else 0)
  | .novalue => false

/-- Display of a value inside a template string (`${v}`). -/
def jsValToString : JSVal → String
  | .str s => s
  | .num n => toString n
  | .nan => "NaN"
  | .bool b => cond b "true" "false"
  | .novalue => "undefined"

/-- Content of a `type` field of an option object: a symbolic name (string),
a wire code (number), or `undefined` (result of an out-of-range enum read). -/
inductive TypeTag where
  | sym (t : OptionType)
  | code (n : Nat)
  | novalue
deriving DecidableEq, Repr

/-- Entry of a channel-type filter list: symbolic, numeric, or `undefined`. -/
inductive ChanTag where
  | sym (c : ChannelType)
  | code (n : Nat)
  | novalue
deriving DecidableEq, Repr

/-- Content of a command-level `type` field: symbolic or numeric. -/
inductive CmdTag where
  | sym (t : CommandType)
  | code (n : Nat)
deriving DecidableEq, Repr

/-- Read `ApplicationCommandOptionTypes[x]`: a symbolic name maps to its
code, a code maps to its name (or `undefined` out of range), `undefined`
maps to `undefined`. -/
def tagLookup : TypeTag → TypeTag
  | .sym t => .code t.toCode
  | .code n =>
    match optionTypeOfCode n with
    | some t => .sym t
    | none => .novalue
  | .novalue => .novalue

/-- Read `ChannelTypes[x]` for a filter-list entry. -/
def chanLookup : ChanTag → ChanTag
  | .sym c => .code c.toCode
  | .code n =>
    match channelTypeOfCode n with
    | some c => .sym c
    | none => .novalue
  | .novalue => .novalue

/-- Resolution used throughout the source:
`typeof x.type === "string" ? x.type : ApplicationCommandOptionTypes[x.type]`,
as the symbolic option type it denotes (`none` models `undefined`). -/
def resolveSym : TypeTag → Option OptionType
  | .sym t => some t
  | .code n => optionTypeOfCode n
  | .novalue => none

/-- Choice of an application command option (name plus string-or-number
value, kept as a general value). -/
structure Choice where
  name : String
  value : JSVal
deriving DecidableEq, Repr

/-- An option object as the source manipulates it: one dynamic JavaScript
shape covering both the declared (wire) spelling and the received (model)
spelling of every field. Absent fields are `none`. -/
inductive RawOption where
  | mk
    (type : TypeTag)
    (name : String)
    (description : String)
    (required : Option Bool)
    (autocomplete : Option Bool)
    (choices : Option (List Choice))
    (options : Option (List RawOption))
    (channelTypes : Option (List ChanTag))
    (channel_types : Option (List ChanTag))
    (minValue : Option Int)
    (min_value : Option Int)
    (maxValue : Option Int)
    (max_value : Option Int)

namespace RawOption

/-- Field `type`. -/
def type : RawOption → TypeTag
  | .mk t _ _ _ _ _ _ _ _ _ _ _ _ => t

/-- Field `name`. -/
def name : RawOption → String
  | .mk _ n _ _ _ _ _ _ _ _ _ _ _ => n

/-- Field `description`. -/
def description : RawOption → String
  | .mk _ _ d _ _ _ _ _ _ _ _ _ _ => d

/-- Field `required`. -/
def required : RawOption → Option Bool
  | .mk _ _ _ r _ _ _ _ _ _ _ _ _ => r

/-- Field `autocomplete`. -/
def autocomplete : RawOption → Option Bool
  | .mk _ _ _ _ a _ _ _ _ _ _ _ _ => a

/-- Field `choices`. -/
def choices : RawOption → Option (List Choice)
  | .mk _ _ _ _ _ c _ _ _ _ _ _ _ => c

/-- Field `options`. -/
def options : RawOption → Option (List RawOption)
  | .mk _ _ _ _ _ _ o _ _ _ _ _ _ => o

/-- Field `channelTypes` (model spelling). -/
def channelTypes : RawOption → Option (List ChanTag)
  | .mk _ _ _ _ _ _ _ cT _ _ _ _ _ => cT

/-- Field `channel_types` (wire spelling). -/
def channel_types : RawOption → Option (List ChanTag)
  | .mk _ _ _ _ _ _ _ _ ct _ _ _ _ => ct

/-- Field `minValue` (model spelling). -/
def minValue : RawOption → Option Int
  | .mk _ _ _ _ _ _ _ _ _ m _ _ _ => m

/-- Field `min_value` (wire spelling). -/
def min_value : RawOption → Option Int
  | .mk _ _ _ _ _ _ _ _ _ _ m _ _ => m

/-- Field `maxValue` (model spelling). -/
def maxValue : RawOption → Option Int
  | .mk _ _ _ _ _ _ _ _ _ _ _ m _ => m

/-- Field `max_value` (wire spelling). -/
def max_value : RawOption → Option Int
  | .mk _ _ _ _ _ _ _ _ _ _ _ _ m => m

end RawOption

mutual

/-- Embedding of `ApplicationCommand.transformOption(option, received)`:
maps an option between the declared (wire) shape and the received (model)
shape, translating the type tag, defaulting `required`, translating the
channel-type filter, and choosing the field spelling for the channel-type
and numeric-bound fields according to the direction. -/
def transformOption (option : RawOption) (received : Bool) : RawOption :=
  match option with
  | .mk ty nm ds rq ac ch os cT c_t mV m_v xV x_v =>
    let stringType : Option OptionType := resolveSym ty
    let outType : TypeTag :=
      match ty, received with
      | .code n, false => .code n
      | t, _ => tagLookup t
    let outRequired : Option Bool :=
      match rq with
      | some b => some b
      | none =>
        if stringType = some .SUB_COMMAND ∨ stringType = some .SUB_COMMAND_GROUP
        then none else some false
    let outOptions : Option (List RawOption) :=
      match os with
      | none => none
      | some l => some (transformOptions l received)
    let chanOut : Option (List ChanTag) :=
      if received then
        match c_t with
        | none => none
        | some l => some (l.map chanLookup)
      else
        match cT with
        | some l =>
          some (l.map fun t =>
            match t with
            | .sym c => .code c.toCode
            | other => other)
        | none => c_t
    let minOut : Option Int := mV.orElse fun _ => m_v
    let maxOut : Option Int := xV.orElse fun _ => x_v
    if received then
      .mk outType nm ds outRequired ac ch outOptions chanOut none minOut none maxOut none
    else
      .mk outType nm ds outRequired ac ch outOptions none chanOut none minOut none maxOut

/-- List version of `transformOption` (the `option.options?.map(...)` call). -/
def transformOptions (l : List RawOption) (received : Bool) : List RawOption :=
  match l with
  | [] => []
  | o :: rest => transformOption o received :: transformOptions rest received

end

/-- Lookup in a JavaScript `Map` built by
`new Map(list.map(o => [key(o), o]))`: repeated insertion means the LAST
entry with a given key wins, hence the search over the reversed list. -/
def mapGetOpt (l : List RawOption) (n : String) : Option RawOption :=
  l.reverse.find? fun o => o.name = n

/-- Lookup in the `Map` of choices keyed by choice name (last entry wins). -/
def mapGetChoice (l : List Choice) (n : String) : Option Choice :=
  l.reverse.find? fun c => c.name = n

/-- Comparison of the resolved candidate type
(`typeof option.type === "string" ? option.type : enum[option.type]`, which
is a string or `undefined`) with the existing `type` field under `!==`. -/
def typeMatches (resolved : Option OptionType) (existing : TypeTag) : Bool :=
  match resolved, existing with
  | some t, .sym u => t = u
  | none, .novalue => true
  | _, _ => false

/-- Pairwise strict choice comparison
`existing.choices.every((choice, index) => name and value match at index)`,
rendered as a simultaneous walk (lengths already equated by the caller). -/
def choicesEqualStrict : List Choice → List Choice → Bool
  | [], _ => true
  | _ :: _, [] => false
  | e :: es, o :: os => (e.name = o.name && jsStrictEq e.value o.value) && choicesEqualStrict es os

/-- The short-circuit mismatch chain of `_optionEquals`: name, resolved
type, description, autocomplete, defaulted `required`, choice-list length,
nested-option-list length, channel-type-list length (candidate side read
through either spelling), and both numeric bounds (idem). -/
def optionMismatch (enm : String) (ety : TypeTag) (eds : String) (erq eac : Option Bool)
    (ech : Option (List Choice)) (eos : Option (List RawOption)) (ecT : Option (List ChanTag))
    (emV exV : Option Int) (option : RawOption) : Bool :=
  let optionType : Option OptionType := resolveSym option.type
  let isSub : Bool :=
    optionType = some .SUB_COMMAND || optionType = some .SUB_COMMAND_GROUP
  let candRequired : Option Bool :=
    match option.required with
    | some b => some b
    | none => if isSub then none else some false
  option.name ≠ enm
    || !typeMatches optionType ety
    || option.description ≠ eds
    || option.autocomplete ≠ eac
    || candRequired ≠ erq
    || (option.choices.map List.length) ≠ (ech.map List.length)
    || (option.options.map List.length) ≠ (eos.map List.length)
    || (((option.channelTypes.orElse fun _ => option.channel_types).map List.length)
         ≠ (ecT.map List.length))
    || (option.minValue.orElse fun _ => option.min_value) ≠ emV
    || (option.maxValue.orElse fun _ => option.max_value) ≠ exV

/-- The choice comparison of `_optionEquals`: pairwise by position under
strict order, name-keyed with exact value match otherwise. -/
def choicesOk (ech : Option (List Choice)) (option : RawOption) (enforce : Bool) : Bool :=
  match ech with
  | none => true
  | some ecs =>
    if enforce then choicesEqualStrict ecs (option.choices.getD [])
    else
      ecs.all fun choice =>
        match mapGetChoice (option.choices.getD []) choice.name with
        | none => false
        | some found => jsStrictEq found.value choice.value

/-- The asymmetric channel-type inclusion check of `_optionEquals`: every
existing entry must appear in the candidate list after normalizing numeric
candidate entries through the enum. -/
def chanOk (ecT : Option (List ChanTag)) (option : RawOption) : Bool :=
  match ecT with
  | none => true
  | some el =>
    let newTypes : List ChanTag :=
      ((option.channelTypes.orElse fun _ => option.channel_types).getD []).map
        fun t => match t with
          | .code n => chanLookup (.code n)
          | other => other
    el.all fun t => newTypes.contains t

mutual

/-- Index-wise comparison
`existing.every((option, index) => _optionEquals(option, options[index], enforce))`,
rendered as a simultaneous walk (the caller has already equated lengths). -/
def optionsEqualStrict : List RawOption → List RawOption → Bool
  | [], _ => true
  | _ :: _, [] => false
  | e :: es, o :: os => _optionEquals e o true && optionsEqualStrict es os

/-- Name-keyed comparison: every existing option must find a same-named
candidate in the map that `_optionEquals` it. -/
def optionsEqualByName : List RawOption → List RawOption → Bool
  | [], _ => true
  | e :: es, table =>
    (match mapGetOpt table e.name with
     | none => false
     | some found => _optionEquals e found false)
    && optionsEqualByName es table

/-- Embedding of `ApplicationCommand._optionEquals(existing, option,
enforceOptionOrder)`: the big short-circuit mismatch test (`optionMismatch`),
then the choice comparison (`choicesOk`), the asymmetric channel-type
inclusion check (`chanOk`), and the recursion into nested options (the
inlined body of `optionsEqual`). -/
def _optionEquals (existing option : RawOption) (enforceOptionOrder : Bool) : Bool :=
  match existing with
  | .mk ety enm eds erq eac ech eos ecT _ emV _ exV _ =>
    if optionMismatch enm ety eds erq eac ech eos ecT emV exV option then false
    else if !choicesOk ech option enforceOptionOrder then false
    else if !chanOk ecT option then false
    else
      match eos with
      | none => true
      | some el =>
        match option.options with
        | some ol =>
          if el.length ≠ ol.length then false
          else if enforceOptionOrder then optionsEqualStrict el ol
          else optionsEqualByName el ol
        | none => false

end

/-- Embedding of `ApplicationCommand.optionsEqual(existing, options,
enforceOptionOrder)`: length guard, then index-by-index comparison under
strict order, or name-keyed comparison otherwise (the name map passes the
default `enforceOptionOrder = false` to `_optionEquals`, as the source
omits the third argument there). The recursive call inside `_optionEquals`
inlines this same body. -/
def optionsEqual (existing options : List RawOption) (enforceOptionOrder : Bool) : Bool :=
  if existing.length ≠ options.length then false
  else if enforceOptionOrder then optionsEqualStrict existing options
  else optionsEqualByName existing options

/-- Unfolding equation: the recursion inside `_optionEquals` is exactly
`optionsEqual`. -/
theorem optionsEqual_def (el ol : List RawOption) (b : Bool) :
    optionsEqual el ol b =
      (if el.length ≠ ol.length then false
       else if b then optionsEqualStrict el ol
       else optionsEqualByName el ol) := rfl

/-- Embedding of an `ApplicationCommand` instance as the constructor and
`_patch` leave it: `type` is the symbolic kind (`undefined` when the wire
code was out of range), `options` are in model shape, and
`defaultPermission` is only present when the wire data carried it. -/
structure Command where
  id : String
  applicationId : String
  version : String
  name : String
  description : String
  type : Option CommandType
  options : List RawOption
  defaultPermission : Option Bool
  sessionId : Option String

/-- Command-shaped data passed as the argument of `equals`: an arbitrary
JavaScript object, every field possibly absent. -/
structure CmdData where
  id : Option String
  name : Option String
  description : Option String
  version : Option String
  autocomplete : Option Bool
  type : Option CmdTag
  options : Option (List RawOption)
  defaultPermission : Option Bool
  default_permission : Option Bool

/-- View of an `ApplicationCommand` instance itself when it is passed as the
candidate of `equals`: every constructor-assigned property is present,
`autocomplete` and the wire spelling `default_permission` are absent. -/
def Command.toData (c : Command) : CmdData where
  id := some c.id
  name := some c.name
  description := some c.description
  version := some c.version
  autocomplete := none
  type := c.type.map CmdTag.sym
  options := some c.options
  defaultPermission := c.defaultPermission
  default_permission := none

/-- Resolution `typeof command.type === "string" ? command.type :
ApplicationCommandTypes[command.type]` as the symbolic kind it denotes. -/
def resolveCmdTag : CmdTag → Option CommandType
  | .sym t => some t
  | .code n => commandTypeOfCode n

/-- Embedding of `ApplicationCommand#equals(command, enforceOptionOrder)`:
the id short-circuit, the top-level mismatch test (name, declared
description/version/autocomplete, resolved kind, option count, and the
default-enabled flag whose absence is defaulted to `true` on the candidate
side only), then the recursion into `optionsEqual` when the candidate
declares options. -/
def Command.equals (self : Command) (command : CmdData) (enforceOptionOrder : Bool) : Bool :=
  if (match command.id with
      | some i => i ≠ "" && i ≠ self.id
      | none => false) then false
  else
    let commandType : Option CommandType :=
      match command.type with
      | some t => resolveCmdTag t
      | none => none
    if command.name ≠ some self.name
       || (match command.description with
           | some d => d ≠ self.description
           | none => false)
       || (match command.version with
           | some v => v ≠ self.version
           | none => false)
       || (match command.autocomplete with
           | some _ => true
           | none => false)
       || (match commandType with
           | some t => self.type ≠ some t
           | none => false)
       || ((command.options.map List.length).getD 0 ≠ self.options.length)
       || (self.defaultPermission
            ≠ some ((command.defaultPermission.orElse fun _ => command.default_permission).getD true))
    then false
    else
      match command.options with
      | some opts => optionsEqual self.options opts enforceOptionOrder
      | none => true

/-- Message context consumed by the encoder: its own id, its author id, and
the guild/channel ids copied into the envelope. -/
structure Msg where
  id : String
  authorId : String
  guildId : Option String
  channelId : String

/-- Exceptions the encoder can raise before any network interaction:
an implicit `TypeError` (undefined property access) or an explicit
`new Error(message)`. -/
inductive JSErr where
  | typeError (msg : String)
  | error (msg : String)
deriving DecidableEq, Repr

/-- Entry of the emitted option list: a leaf `{ type, name, value }` or the
subcommand wrapper `{ type, name, options }`. -/
inductive OutOption where
  | leaf (type : TypeTag) (name : String) (value : JSVal)
  | sub (type : TypeTag) (name : String) (options : List OutOption)

/-- Interaction body posted by `sendSlashCommand` (the nested `data` block
is flattened into the `version`/`id`/`name`/`dataType`/`options` fields). -/
structure SlashBody where
  type : Nat
  application_id : String
  guild_id : Option String
  channel_id : String
  session_id : Option String
  version : String
  id : String
  name : String
  dataType : Option Nat
  options : List OutOption

/-- Interaction body posted by `sendContextMenu`. -/
structure ContextBody where
  type : Nat
  application_id : String
  guild_id : Option String
  channel_id : String
  session_id : Option String
  version : String
  id : String
  name : String
  dataType : Option Nat
  target_id : String

/-- Outcome of `sendSlashCommand` up to the network call: a thrown
exception, the benign `false` return for a non-chat-input command, or the
posted body. -/
inductive SlashResult where
  | thrown (e : JSErr)
  | notApplicable
  | posted (body : SlashBody)

/-- Outcome of `sendContextMenu` up to the network call. -/
inductive ContextResult where
  | notApplicable
  | posted (body : ContextBody)

/-- Test whether an option is a routing node:
`["SUB_COMMAND", "SUB_COMMAND_GROUP"].includes(option.type)`. -/
def isSubNode (o : RawOption) : Bool :=
  o.type = .sym .SUB_COMMAND || o.type = .sym .SUB_COMMAND_GROUP

/-- The `subCommandCheck` of `sendSlashCommand`: does any top-level option
route into a subcommand or subcommand-group. -/
def subCommandCheck (cmd : Command) : Bool :=
  cmd.options.any isSubNode

/-- Enumeration of the valid choices used in the fatal choice error:
`choices.map((c, i)  => ...#i Name/Value lines...).join("")`. -/
def choiceLines : Nat → List Choice → String
  | _, [] => ""
  | i, c :: rest =>
    "#" ++ toString (i + 1) ++ " Name: " ++ c.name ++ " Value: "
      ++ jsValToString c.value ++ "\n" ++ choiceLines (i + 1) rest

/-- Message of the fatal unresolvable-choice error; the subcommand path puts
an extra newline after the `List of choices:` header. -/
def choiceErrMsg (subPath : Bool) (v : String) (cs : List Choice) : String :=
  "Invalid option: " ++ v ++ " is not a valid choice for this option\nList of choices: "
    ++ (if subPath then "\n" else "") ++ choiceLines 0 cs

/-- Choice resolution of a token: first the name match
`choices.find(c => c.name == value)`, then the value match
`choices.find(c => c.value == value)`. -/
def matchChoice (cs : List Choice) (v : String) : Option Choice :=
  (cs.find? fun c => c.name = v).orElse fun _ => cs.find? fun c => jsLooseEqValStr c.value v

/-- Type coercion of a token without a matched choice:
`type == "INTEGER" ? Number(value) : type == "BOOLEAN" ? Boolean(value) : value`. -/
def coerceValue (ty : TypeTag) (v : String) : JSVal :=
  if ty = .sym .INTEGER then jsStrToNumber v
  else if ty = .sym .BOOLEAN then .bool (v ≠ "")
  else .str v

/-- Value carried by the emitted entry for one token against its option:
choice resolution when the option declares a non-empty choice list (a falsy
matched value falls through to coercion, `choice?.value || ...`), plain
coercion otherwise; an unresolvable token is the fatal enumerated error. -/
def resolveOptionValue (subPath : Bool) (opt : RawOption) (v : String) : Except JSErr JSVal :=
  match opt.choices with
  | some cs =>
    if cs.length > 0 then
      match matchChoice cs v with
      | some c => .ok (if c.value.truthy then c.value else coerceValue opt.type v)
      | none => .error (.error (choiceErrMsg subPath v cs))
    else .ok (coerceValue opt.type v)
  | none => .ok (coerceValue opt.type v)

/-- Body of the encoding loop on the plain (non-subcommand) path, one token
per option position: a position with no declared option is skipped, and
each resolved token emits `{ type, name, value }` in encounter order. -/
def slashLoopTop (cmd : Command) : List String → Nat → Except JSErr (List OutOption)
  | [], _ => .ok []
  | v :: rest, i =>
    match cmd.options[i]? with
    | none => slashLoopTop cmd rest (i + 1)
    | some opt =>
      match resolveOptionValue false opt v with
      | .error e => .error e
      | .ok value =>
        match slashLoopTop cmd rest (i + 1) with
        | .error e => .error e
        | .ok tail => .ok (.leaf (tagLookup opt.type) opt.name value :: tail)

/-- Body of the encoding loop on the subcommand path: a position beyond the
nested option list is skipped, an empty-string token is skipped
(`if (!value) continue`), and when the subcommand node has no nested option
list at all, a non-empty token crashes on the undefined access
`subCommand.options[i].type`. -/
def slashLoopSub (sc : RawOption) : List String → Nat → Except JSErr (List OutOption)
  | [], _ => .ok []
  | v :: rest, i =>
    match sc.options with
    | some so =>
      match so[i]? with
      | none => slashLoopSub sc rest (i + 1)
      | some opt =>
        if v = "" then slashLoopSub sc rest (i + 1)
        else
          match resolveOptionValue true opt v with
          | .error e => .error e
          | .ok value =>
            match slashLoopSub sc rest (i + 1) with
            | .error e => .error e
            | .ok tail => .ok (.leaf (tagLookup opt.type) opt.name value :: tail)
    | none =>
      if v = "" then slashLoopSub sc rest (i + 1)
      else .error (.typeError "Cannot read properties of undefined (reading type)")

/-- Post-loop required check on the plain path:
`this.options[i]?.required` at the final index, which equals the number of
supplied tokens. -/
def requiredMissingTop (cmd : Command) (i : Nat) : Bool :=
  match cmd.options[i]? with
  | some o => o.required = some true
  | none => false

/-- Post-loop required check on the subcommand path:
`subCommand?.options && subCommand?.options[i]?.required`. -/
def requiredMissingSub (sc : RawOption) (i : Nat) : Bool :=
  match sc.options with
  | some so =>
    match so[i]? with
    | some o => o.required = some true
    | none => false
  | none => false

/-- Envelope and data block of the posted slash body
(`type: 2`, caller context ids, then version/id/name/kind/options). -/
def mkSlashBody (cmd : Command) (msg : Msg) (opts : List OutOption) : SlashBody where
  type := 2
  application_id := cmd.applicationId
  guild_id := msg.guildId
  channel_id := msg.channelId
  session_id := cmd.sessionId
  version := cmd.version
  id := cmd.id
  name := cmd.name
  dataType := cmd.type.map CommandType.toCode
  options := opts

/-- Outcome of the plain (non-subcommand) path of `sendSlashCommand`: run
the loop over all tokens from index 0, then the post-loop required check at
the final index (the token count), then post. -/
def slashTopOutcome (cmd : Command) (msg : Msg) (tokens : List String) : SlashResult :=
  match slashLoopTop cmd tokens 0 with
  | .error e => .thrown e
  | .ok fmt =>
    if requiredMissingTop cmd tokens.length then .thrown (.error "Value required missing")
    else .posted (mkSlashBody cmd msg fmt)

/-- Outcome of the subcommand path of `sendSlashCommand` after the shift:
an unmatched first token crashes on the undefined access
`subCommand.type`; otherwise the loop runs over the remaining tokens
against the selected node, the post-loop required check fires at the
remaining-token count, and the built list is wrapped in the single outer
subcommand entry. -/
def slashSubOutcome (cmd : Command) (msg : Msg) (sub? : Option RawOption)
    (rest : List String) : SlashResult :=
  match sub? with
  | none => .thrown (.typeError "Cannot read properties of undefined (reading type)")
  | some sc =>
    match slashLoopSub sc rest 0 with
    | .error e => .thrown e
    | .ok fmt =>
      if requiredMissingSub sc rest.length then .thrown (.error "Value required missing")
      else .posted (mkSlashBody cmd msg [.sub (tagLookup sc.type) sc.name fmt])

/-- Selection of the subcommand node by the first token:
`this.options.find(option => option.name == options[0])`. -/
def findSubCommand (cmd : Command) (tokens : List String) : Option RawOption :=
  match tokens.head? with
  | some t => cmd.options.find? fun o => o.name = t
  | none => none

/-- Embedding of `ApplicationCommand#sendSlashCommand(message, options)` up
to the network call. The returned pair carries the outcome and the state of
the caller-supplied token array after the call: the subcommand path removes
its first element (`options.shift()`) before anything else can fail. -/
def sendSlashCommand (cmd : Command) (msg : Msg) (tokens : List String) :
    SlashResult × List String :=
  if cmd.type ≠ some .CHAT_INPUT then (.notApplicable, tokens)
  else if subCommandCheck cmd then
    (slashSubOutcome cmd msg (findSubCommand cmd tokens) tokens.tail, tokens.tail)
  else (slashTopOutcome cmd msg tokens, tokens)

/-- Embedding of `ApplicationCommand#sendContextMenu(message)` up to the
network call: the chat-input kind returns the benign `false`, and otherwise
the body carries `target_id`, chosen by the comparison
`ApplicationCommandTypes[this.type] == 1` between the author id and the
message id. -/
def sendContextMenu (cmd : Command) (msg : Msg) : ContextResult :=
  if cmd.type = some .CHAT_INPUT then .notApplicable
  else
    .posted
      { type := 2
        application_id := cmd.applicationId
        guild_id := msg.guildId
        channel_id := msg.channelId
        session_id := cmd.sessionId
        version := cmd.version
        id := cmd.id
        name := cmd.name
        dataType := cmd.type.map CommandType.toCode
        target_id :=
          if cmd.type.map CommandType.toCode = some 1 then msg.authorId else msg.id }

/-- Uniqueness of a key list (the spec requires option and choice names to
be unambiguous for name-based lookup). -/
def strNodup : List String → Bool
  | [] => true
  | x :: xs => !xs.contains x && strNodup xs

/-- Consistency of the `required` field with the option type per the data
model: present (defaulted) exactly on non-routing nodes, absent on
subcommand and subcommand-group nodes. -/
def requiredConsistent (rq : Option Bool) (ty : TypeTag) : Bool :=
  rq.isSome = !(ty = .sym .SUB_COMMAND || ty = .sym .SUB_COMMAND_GROUP)

/-- Well-formedness of a choice list: unambiguous names, no `NaN` values. -/
def wfChoices : Option (List Choice) → Bool
  | none => true
  | some cs => strNodup (cs.map Choice.name) && cs.all fun c => c.value ≠ .nan

/-- Well-formedness of a model channel-type filter: all entries symbolic. -/
def wfChanTags : Option (List ChanTag) → Bool
  | none => true
  | some l => l.all fun t => match t with | .sym _ => true | _ => false

/-- Test for a symbolic type tag. -/
def isSymTag : TypeTag → Bool
  | .sym _ => true
  | _ => false

mutual

/-- Well-formedness of a received-shape (model) option per the data model of
the spec: a symbolic type; `required` present exactly on non-routing nodes;
choice names unambiguous and choice values never `NaN`; the wire field
spellings absent; a symbolic channel-type filter; nested options
well-formed with unambiguous names. -/
def wfOption : RawOption → Bool
  | .mk ty _ _ rq _ ch os cT c_t _ m_v _ x_v =>
    isSymTag ty && requiredConsistent rq ty && wfChoices ch
    && c_t.isNone && m_v.isNone && x_v.isNone && wfChanTags cT
    && (match os with
        | none => true
        | some l => strNodup (l.map RawOption.name) && wfOptions l)

/-- List version of `wfOption`. -/
def wfOptions : List RawOption → Bool
  | [] => true
  | o :: rest => wfOption o && wfOptions rest

end

/-- Well-formedness of a whole command snapshot per the data model of the
spec: the default-enabled flag is part of a command record, the options are
well-formed model options with unambiguous top-level names. -/
def wfCommand (c : Command) : Bool :=
  c.defaultPermission.isSome && wfOptions c.options && strNodup (c.options.map RawOption.name)

mutual

/-- Well-formedness of a declared-shape (wire) option: an in-range numeric
type code, only the wire spellings of the dual fields, in-range numeric
channel-type codes, nested options well-formed. -/
def wfWire : RawOption → Bool
  | .mk ty _ _ _ _ _ os cT c_t mV _ xV _ =>
    (match ty with
     | .code n => (optionTypeOfCode n).isSome
     | _ => false)
    && cT.isNone && mV.isNone && xV.isNone
    && (match c_t with
        | none => true
        | some l => l.all fun t =>
            match t with
            | .code n => (channelTypeOfCode n).isSome
            | _ => false)
    && (match os with
        | none => true
        | some l => wfWires l)

/-- List version of `wfWire`. -/
def wfWires : List RawOption → Bool
  | [] => true
  | o :: rest => wfWire o && wfWires rest

end

mutual

/-- Normalization of a wire option by the default-filled fields the spec
names: the `required` default is filled in (absent becomes `false` except on
routing nodes, where it stays absent), recursively; every other field is
untouched. -/
def normalizeWire : RawOption → RawOption
  | .mk ty nm ds rq ac ch os cT c_t mV m_v xV x_v =>
    let req : Option Bool :=
      match rq with
      | some b => some b
      | none =>
        if resolveSym ty = some .SUB_COMMAND ∨ resolveSym ty = some .SUB_COMMAND_GROUP
        then none else some false
    let os2 : Option (List RawOption) :=
      match os with
      | none => none
      | some l => some (normalizeWires l)
    .mk ty nm ds req ac ch os2 cT c_t mV m_v xV x_v

/-- List version of `normalizeWire`. -/
def normalizeWires : List RawOption → List RawOption
  | [] => []
  | o :: rest => normalizeWire o :: normalizeWires rest

end

/-- The `STRING` option named `role` of the subcommand-routing example of
the spec. -/
def roleOpt : RawOption :=
  .mk (.sym .STRING) "role" "the role id" (some true) none none none none none none none none none

/-- Subcommand `add` with one required `STRING` option `role`. -/
def addSub : RawOption :=
  .mk (.sym .SUB_COMMAND) "add" "add a role" none none none (some [roleOpt]) none none none none none none

/-- Subcommand `remove`, the sibling of `add`. -/
def removeSub : RawOption :=
  .mk (.sym .SUB_COMMAND) "remove" "remove a role" none none none (some [roleOpt]) none none none none none none

/-- Chat-input command whose top-level options are the two subcommands. -/
def subCmd : Command where
  id := "10"
  applicationId := "99"
  version := "7"
  name := "role"
  description := "manage roles"
  type := some .CHAT_INPUT
  options := [addSub, removeSub]
  defaultPermission := some true
  sessionId := some "sess"

/-- Message fixture: the message id and its author id differ. -/
def theMsg : Msg where
  id := "100"
  authorId := "200"
  guildId := some "300"
  channelId := "400"

/-- The two enum directions of the option-type table are mutually inverse on
in-range codes. -/
theorem optionType_toCode_ofCode {n : Nat} {t : OptionType}
    (h : optionTypeOfCode n = some t) : t.toCode = n := by
  unfold optionTypeOfCode at h
  split at h <;>
    first
    | (injection h with h2; subst h2; rfl)
    | exact Option.noConfusion h

/-- The two enum directions of the channel-type table are mutually inverse
on in-range codes. -/
theorem channelType_toCode_ofCode {n : Nat} {c : ChannelType}
    (h : channelTypeOfCode n = some c) : c.toCode = n := by
  unfold channelTypeOfCode at h
  split at h <;>
    first
    | (injection h with h2; subst h2; rfl)
    | exact Option.noConfusion h

/-- Round trip of a well-formed wire channel-type filter list through the
received translation and back. -/
theorem chanFilter_roundtrip (l : List ChanTag)
    (h : ∀ t ∈ l, (match t with
                   | ChanTag.code m => (channelTypeOfCode m).isSome
                   | _ => false) = true) :
    (l.map chanLookup).map
        (fun t => match t with
          | ChanTag.sym c => ChanTag.code c.toCode
          | other => other) = l := by
  induction l with
  | nil => rfl
  | cons t rest ih =>
    have ht := h t (by simp)
    have hrest : ∀ x ∈ rest,
        (match x with
         | ChanTag.code m => (channelTypeOfCode m).isSome
         | _ => false) = true := fun x hx => h x (List.mem_cons_of_mem _ hx)
    cases t with
    | code m =>
      simp only [Option.isSome_iff_exists] at ht
      obtain ⟨c, hc⟩ := ht
      simp [chanLookup, hc, channelType_toCode_ofCode hc, ih hrest]
    | sym c => simp at ht
    | novalue => simp at ht

/-- Round trip of a list of well-formed wire options, given the round trip
of each member. -/
theorem roundtripsOf (l : List RawOption)
    (H : ∀ o ∈ l, wfWire o = true →
      transformOption (transformOption o true) false = normalizeWire o)
    (hwf : wfWires l = true) :
    transformOptions (transformOptions l true) false = normalizeWires l := by
  induction l with
  | nil => rfl
  | cons o rest ih =>
    simp only [wfWires, Bool.and_eq_true] at hwf
    simp only [transformOptions, normalizeWires]
    rw [H o (by simp) hwf.1, ih (fun x hx h => H x (by simp [hx]) h) hwf.2]

/-- Fallback to an absent field is the identity (`x ?? undefined`). -/
theorem orElse_none_fun {α : Type} (o : Option α) : (Option.orElse o fun _ => none) = o := by
  cases o <;> rfl

/-- Fallback from an absent field reads the alternative (`undefined ?? y`). -/
theorem orElse_none_left {α : Type} (f : Unit → Option α) : Option.orElse none f = f () := rfl

/-- Size bound used for strong induction into nested options. -/
theorem sizeOf_mem_options {o : RawOption} {l : List RawOption} (h : o ∈ l)
    (ty : TypeTag) (nm ds : String) (rq ac : Option Bool) (ch : Option (List Choice))
    (cT c_t : Option (List ChanTag)) (mV m_v xV x_v : Option Int) :
    sizeOf o < sizeOf (RawOption.mk ty nm ds rq ac ch (some l) cT c_t mV m_v xV x_v) := by
  have h1 := List.sizeOf_lt_of_mem h
  simp only [RawOption.mk.sizeOf_spec, Option.some.sizeOf_spec]
  omega

/-- Transcoder round trip, by strong induction on the size of the option:
for every well-formed wire option, translating to the model shape and back
yields the original up to the `required` default. -/
theorem roundtripAux :
    ∀ (k : Nat) (w : RawOption), sizeOf w ≤ k → wfWire w = true →
      transformOption (transformOption w true) false = normalizeWire w := by
  intro k
  induction k with
  | zero =>
    intro w hw _
    exfalso
    cases w
    simp only [RawOption.mk.sizeOf_spec] at hw
    omega
  | succ k ih =>
    intro w hw hwf
    cases w with
    | mk ty nm ds rq ac ch os cT c_t mV m_v xV x_v =>
      unfold wfWire at hwf
      simp only [Bool.and_eq_true] at hwf
      obtain ⟨⟨⟨⟨⟨hty, hcT⟩, hmV⟩, hxV⟩, hct⟩, hos⟩ := hwf
      cases ty with
      | code n =>
        simp only [Option.isSome_iff_exists] at hty
        obtain ⟨t, htn⟩ := hty
        simp only [Option.isNone_iff_eq_none] at hcT hmV hxV
        subst hcT hmV hxV
        have hrec : ∀ l, os = some l →
            transformOptions (transformOptions l true) false = normalizeWires l := by
          intro l hl
          subst hl
          refine roundtripsOf l (fun o homem hwfo => ih o ?_ hwfo) (by simpa using hos)
          have := sizeOf_mem_options homem (.code n) nm ds rq ac ch none c_t none m_v none x_v
          omega
        have hchan : ∀ l, c_t = some l →
            ((l.map chanLookup).map
              (fun tg => match tg with
                | ChanTag.sym c => ChanTag.code c.toCode
                | other => other)) = l := by
          intro l hl
          subst hl
          refine chanFilter_roundtrip l (fun tg htg => ?_)
          have hct2 : l.all (fun tg =>
              match tg with
              | ChanTag.code m => (channelTypeOfCode m).isSome
              | _ => false) = true := hct
          rw [List.all_eq_true] at hct2
          exact hct2 tg htg
        cases os with
        | none =>
          cases c_t with
          | none =>
            cases rq with
            | none =>
              by_cases hsub : t = OptionType.SUB_COMMAND ∨ t = OptionType.SUB_COMMAND_GROUP
              all_goals
                simp [transformOption, normalizeWire, resolveSym, htn, tagLookup,
                  optionType_toCode_ofCode htn, hsub, orElse_none_left, orElse_none_fun]
            | some b =>
              simp [transformOption, normalizeWire, resolveSym, htn, tagLookup,
                optionType_toCode_ofCode htn, orElse_none_left, orElse_none_fun]
          | some lc =>
            cases rq with
            | none =>
              by_cases hsub : t = OptionType.SUB_COMMAND ∨ t = OptionType.SUB_COMMAND_GROUP
              all_goals
                simp [transformOption, normalizeWire, resolveSym, htn, tagLookup,
                  optionType_toCode_ofCode htn, hsub, orElse_none_left, orElse_none_fun, hchan lc rfl]
            | some b =>
              simp [transformOption, normalizeWire, resolveSym, htn, tagLookup,
                optionType_toCode_ofCode htn, orElse_none_left, orElse_none_fun, hchan lc rfl]
        | some lo =>
          cases c_t with
          | none =>
            cases rq with
            | none =>
              by_cases hsub : t = OptionType.SUB_COMMAND ∨ t = OptionType.SUB_COMMAND_GROUP
              all_goals
                simp [transformOption, normalizeWire, resolveSym, htn, tagLookup,
                  optionType_toCode_ofCode htn, hsub, orElse_none_left, orElse_none_fun, hrec lo rfl]
            | some b =>
              simp [transformOption, normalizeWire, resolveSym, htn, tagLookup,
                optionType_toCode_ofCode htn, orElse_none_left, orElse_none_fun, hrec lo rfl]
          | some lc =>
            cases rq with
            | none =>
              by_cases hsub : t = OptionType.SUB_COMMAND ∨ t = OptionType.SUB_COMMAND_GROUP
              all_goals
                simp [transformOption, normalizeWire, resolveSym, htn, tagLookup,
                  optionType_toCode_ofCode htn, hsub, orElse_none_left, orElse_none_fun, hrec lo rfl,
                  hchan lc rfl]
            | some b =>
              simp [transformOption, normalizeWire, resolveSym, htn, tagLookup,
                optionType_toCode_ofCode htn, orElse_none_left, orElse_none_fun, hrec lo rfl, hchan lc rfl]

      | sym t => simp at hty
      | novalue => simp at hty

/-- Bridge between the executable key-uniqueness test and `List.Nodup`. -/
theorem strNodup_iff : ∀ l : List String, strNodup l = true ↔ l.Nodup := by
  intro l
  induction l with
  | nil => simp [strNodup]
  | cons x xs ih =>
    simp [strNodup, List.nodup_cons, Bool.and_eq_true, ih, List.elem_iff]

/-- Strict equality is reflexive away from `NaN`. -/
theorem jsStrictEq_refl {v : JSVal} (h : v ≠ .nan) : jsStrictEq v v = true := by
  cases v <;> simp [jsStrictEq] <;> simp_all

/-- Reflexivity of the pairwise strict choice comparison, away from `NaN`
values. -/
theorem choicesEqualStrict_refl (cs : List Choice)
    (h : ∀ c ∈ cs, c.value ≠ .nan) : choicesEqualStrict cs cs = true := by
  induction cs with
  | nil => rfl
  | cons c rest ih =>
    simp only [choicesEqualStrict, Bool.and_eq_true]
    refine ⟨⟨by simp, jsStrictEq_refl (h c (by simp))⟩, ih fun x hx => h x (by simp [hx])⟩

/-- On a list with pairwise distinct keys, `find?` by the key of a member
returns that member. -/
theorem find?_key_of_nodup {β : Type} (key : β → String) (b : β) :
    ∀ l : List β, b ∈ l → (l.map key).Nodup →
      l.find? (fun x => key x = key b) = some b := by
  intro l
  induction l with
  | nil => intro h; simp at h
  | cons a rest ih =>
    intro hb hnd
    rw [List.map_cons, List.nodup_cons] at hnd
    rcases List.mem_cons.mp hb with h1 | h2
    · subst h1
      simp [List.find?_cons_of_pos]
    · have hne : key a ≠ key b := fun he => hnd.1 (he ▸ List.mem_map_of_mem key h2)
      rw [List.find?_cons_of_neg _ (by simp [hne])]
      exact ih h2 hnd.2

/-- A name-map lookup on uniquely named options finds the member itself. -/
theorem mapGetOpt_self {l : List RawOption} {o : RawOption} (ho : o ∈ l)
    (hnd : (l.map RawOption.name).Nodup) : mapGetOpt l o.name = some o := by
  unfold mapGetOpt
  have h2 : (l.reverse.map RawOption.name).Nodup := by
    rw [List.map_reverse]
    exact List.nodup_reverse.mpr hnd
  exact find?_key_of_nodup RawOption.name o l.reverse (List.mem_reverse.mpr ho) h2

/-- A name-map lookup on uniquely named choices finds the member itself. -/
theorem mapGetChoice_self {cs : List Choice} {c : Choice} (hc : c ∈ cs)
    (hnd : (cs.map Choice.name).Nodup) : mapGetChoice cs c.name = some c := by
  unfold mapGetChoice
  have h2 : (cs.reverse.map Choice.name).Nodup := by
    rw [List.map_reverse]
    exact List.nodup_reverse.mpr hnd
  exact find?_key_of_nodup Choice.name c cs.reverse (List.mem_reverse.mpr hc) h2

/-- Reflexivity of the index-wise option walk, given reflexivity of the
members. -/
theorem optionsEqualStrict_refl_of (l : List RawOption)
    (H : ∀ o ∈ l, _optionEquals o o true = true) : optionsEqualStrict l l = true := by
  induction l with
  | nil => rfl
  | cons o rest ih =>
    simp only [optionsEqualStrict, Bool.and_eq_true]
    exact ⟨H o (by simp), ih fun x hx => H x (by simp [hx])⟩

/-- The name-keyed walk succeeds whenever every walked option finds itself
in the table and is self-equal. -/
theorem optionsEqualByName_of (l2 l : List RawOption)
    (H : ∀ o ∈ l2, mapGetOpt l o.name = some o ∧ _optionEquals o o false = true) :
    optionsEqualByName l2 l = true := by
  induction l2 with
  | nil => rfl
  | cons o rest ih =>
    simp only [optionsEqualByName, Bool.and_eq_true]
    obtain ⟨hfind, hrefl⟩ := H o (by simp)
    rw [hfind]
    exact ⟨hrefl, ih fun x hx => H x (by simp [hx])⟩

/-- A channel-type filter whose entries are all symbolic is untouched by the
candidate-side numeric normalization map. -/
theorem chanMap_id (el : List ChanTag)
    (h : ∀ t ∈ el, (match t with | ChanTag.sym _ => true | _ => false) = true) :
    (el.map fun t => match t with
      | ChanTag.code n => chanLookup (.code n)
      | other => other) = el := by
  induction el with
  | nil => rfl
  | cons t rest ih =>
    have ht := h t (by simp)
    cases t with
    | sym c => simp [ih fun x hx => h x (by simp [hx])]
    | code n => simp at ht
    | novalue => simp [ih fun x hx => h x (by simp [hx])]

/-- Reading a present field with a fallback keeps the field (`x ?? y`). -/
theorem orElse_some {α : Type} (a : α) (f : Unit → Option α) :
    Option.orElse (some a) f = some a := rfl

/-- Members of a well-formed option list are well-formed. -/
theorem wfOptions_mem : ∀ (l : List RawOption) (o : RawOption),
    wfOptions l = true → o ∈ l → wfOption o = true := by
  intro l
  induction l with
  | nil => intro o _ h; simp at h
  | cons a rest ih =>
    intro o hwf ho
    unfold wfOptions at hwf
    simp only [Bool.and_eq_true] at hwf
    rcases List.mem_cons.mp ho with h1 | h2
    · subst h1; exact hwf.1
    · exact ih o hwf.2 h2

/-- The mismatch chain never fires when an option in model shape is
compared with itself. -/
theorem optionMismatch_self (t : OptionType) (nm ds : String) (rq ac : Option Bool)
    (ch : Option (List Choice)) (os : Option (List RawOption)) (cT : Option (List ChanTag))
    (mV xV : Option Int) (h2 : requiredConsistent rq (.sym t) = true) :
    optionMismatch nm (.sym t) ds rq ac ch os cT mV xV
      (.mk (.sym t) nm ds rq ac ch os cT none mV none xV none) = false := by
  unfold optionMismatch
  simp only [RawOption.name, RawOption.type, RawOption.description, RawOption.required,
    RawOption.autocomplete, RawOption.choices, RawOption.options, RawOption.channelTypes,
    RawOption.channel_types, RawOption.minValue, RawOption.min_value, RawOption.maxValue,
    RawOption.max_value, resolveSym, typeMatches, orElse_none_fun, orElse_some]
  cases rq with
  | some b =>
    simp
  | none =>
    unfold requiredConsistent at h2
    simp only [Option.isSome_none, Bool.false_eq, Bool.not_eq_eq_eq_not, Bool.not_false,
      decide_eq_true_eq] at h2
    simp [h2]
    simp at h2
    rcases h2 with h | h <;> simp [h]

/-- The choice comparison always succeeds when a well-formed choice list is
compared with itself. -/
theorem choicesOk_self (ch : Option (List Choice)) (opt : RawOption)
    (hopt : opt.choices = ch) (h : wfChoices ch = true) (b : Bool) :
    choicesOk ch opt b = true := by
  unfold choicesOk
  cases ch with
  | none => rfl
  | some ecs =>
    unfold wfChoices at h
    simp only [Bool.and_eq_true] at h
    have hnd := (strNodup_iff _).mp h.1
    have hnn : ∀ c ∈ ecs, c.value ≠ JSVal.nan := by
      have := h.2
      rw [List.all_eq_true] at this
      intro c hc
      simpa using this c hc
    rw [hopt]
    cases b with
    | true => simpa using choicesEqualStrict_refl ecs hnn
    | false =>
      simp only [if_neg Bool.false_ne_true, List.all_eq_true, Option.getD_some]
      intro c hc
      rw [mapGetChoice_self hc hnd]
      exact jsStrictEq_refl (hnn c hc)

/-- The channel-type inclusion check always succeeds when a symbolic filter
is compared with itself. -/
theorem chanOk_self (cT : Option (List ChanTag)) (opt : RawOption)
    (hopt : opt.channelTypes = cT) (h : wfChanTags cT = true) :
    chanOk cT opt = true := by
  unfold chanOk
  cases cT with
  | none => rfl
  | some el =>
    unfold wfChanTags at h
    have h2 : ∀ tg ∈ el, (match tg with
        | ChanTag.sym _ => true
        | _ => false) = true := by
      rw [List.all_eq_true] at h
      exact h
    rw [hopt, orElse_some]
    simp only [Option.getD_some, chanMap_id el h2, List.all_eq_true]
    intro tg htg
    simp [List.elem_iff, htg]

set_option maxHeartbeats 1600000 in
/-- Reflexivity of the option comparison on well-formed model options, for
both order policies, by strong induction on the size of the option. -/
theorem optionEquals_refl_aux :
    ∀ (k : Nat) (o : RawOption), sizeOf o ≤ k → wfOption o = true →
      ∀ b, _optionEquals o o b = true := by
  intro k
  induction k with
  | zero =>
    intro o hsz _
    exfalso
    cases o
    simp only [RawOption.mk.sizeOf_spec] at hsz
    omega
  | succ k ih =>
    intro o hsz hwf b
    cases o with
    | mk ty nm ds rq ac ch os cT c_t mV m_v xV x_v =>
      unfold wfOption at hwf
      simp only [Bool.and_eq_true] at hwf
      obtain ⟨⟨⟨⟨⟨⟨⟨h1, h2⟩, h3⟩, h4⟩, h5⟩, h6⟩, h7⟩, h8⟩ := hwf
      cases ty with
      | sym t =>
        simp only [Option.isNone_iff_eq_none] at h4 h5 h6
        subst h4 h5 h6
        unfold _optionEquals
        rw [optionMismatch_self t nm ds rq ac ch os cT mV xV h2]
        rw [choicesOk_self ch (.mk (.sym t) nm ds rq ac ch os cT none mV none xV none) rfl h3 b]
        rw [chanOk_self cT (.mk (.sym t) nm ds rq ac ch os cT none mV none xV none) rfl h7]
        simp only [Bool.not_true, Bool.false_eq_true, if_false]
        cases os with
        | none => simp
        | some el =>
          simp only [RawOption.options, ne_eq, not_true_eq_false, if_false, if_true]
          have h8b : strNodup (el.map RawOption.name) = true ∧ wfOptions el = true := by
            simpa [Bool.and_eq_true] using h8
          have hnd := (strNodup_iff _).mp h8b.1
          have hrefl : ∀ o2 ∈ el, ∀ b3, _optionEquals o2 o2 b3 = true := by
            intro o2 ho2 b3
            refine ih o2 ?_ (wfOptions_mem el o2 h8b.2 ho2) b3
            have := sizeOf_mem_options ho2 (.sym t) nm ds rq ac ch cT none mV none xV none
            omega
          cases b with
          | true =>
            simp [optionsEqualStrict_refl_of el fun o2 ho2 => hrefl o2 ho2 true]
          | false =>
            simp [optionsEqualByName_of el el
              fun o2 ho2 => ⟨mapGetOpt_self ho2 hnd, hrefl o2 ho2 false⟩]
      | code n => simp [isSymTag] at h1
      | novalue => simp [isSymTag] at h1

/-- A successful option comparison forces equal names (first link of the
mismatch chain). -/
theorem _optionEquals_name {e o : RawOption} {b : Bool}
    (h : _optionEquals e o b = true) : o.name = e.name := by
  cases e with
  | mk ety enm eds erq eac ech eos ecT ect emV emv exV exv =>
    unfold _optionEquals at h
    split at h
    · exact absurd h (by simp)
    · next hmis =>
      rw [RawOption.name]
      unfold optionMismatch at hmis
      simp only [Bool.or_eq_true, not_or] at hmis
      have := hmis.1.1.1.1.1.1.1.1.1
      simpa using this

/-- A successful index-wise walk with equal lengths forces positionally
equal names. -/
theorem optionsEqualStrict_names : ∀ (l l2 : List RawOption),
    optionsEqualStrict l l2 = true → l.length = l2.length →
    l2.map RawOption.name = l.map RawOption.name := by
  intro l
  induction l with
  | nil =>
    intro l2 _ hlen
    cases l2 with
    | nil => rfl
    | cons a r => simp at hlen
  | cons e es ih =>
    intro l2 hs hlen
    cases l2 with
    | nil => simp at hlen
    | cons o os =>
      unfold optionsEqualStrict at hs
      simp only [Bool.and_eq_true] at hs
      simp only [List.map_cons, List.length_cons] at hlen ⊢
      exact List.cons_eq_cons.mpr
        ⟨_optionEquals_name hs.1, ih os hs.2 (by omega)⟩

/-- On a list whose names are unambiguous, an element is determined by its
name. -/
theorem name_inj_of_nodup {l : List RawOption}
    (hnd : (l.map RawOption.name).Nodup) {x y : RawOption}
    (hx : x ∈ l) (hy : y ∈ l) (hn : x.name = y.name) : x = y :=
  List.inj_on_of_nodup_map hnd hx hy hn

/-- A permutation of a uniquely named option list that agrees with it name
by name position by position is the list itself. -/
theorem eq_of_perm_names : ∀ (l l2 : List RawOption), l.Perm l2 →
    (l.map RawOption.name).Nodup → l2.map RawOption.name = l.map RawOption.name →
    l2 = l := by
  intro l
  induction l with
  | nil =>
    intro l2 hperm _ _
    exact hperm.symm.eq_nil
  | cons a rest ih =>
    intro l2 hperm hnd hnames
    cases l2 with
    | nil => simp [List.Perm.eq_nil hperm] at hperm ⊢
    | cons b rest2 =>
      simp only [List.map_cons, List.cons_eq_cons] at hnames
      have hb : b = a := by
        have hbmem : b ∈ a :: rest := hperm.symm.subset (by simp)
        exact name_inj_of_nodup hnd hbmem (by simp) hnames.1
      subst hb
      have hperm2 : rest.Perm rest2 := (List.perm_cons b).mp hperm
      rw [List.map_cons, List.nodup_cons] at hnd
      rw [ih rest2 hperm2 hnd.2 hnames.2]

/-- Reflexivity of the full list comparison on well-formed, uniquely named
option lists, for both order policies. -/
theorem optionsEqual_refl (l : List RawOption) (hwf : wfOptions l = true)
    (hnd : (l.map RawOption.name).Nodup) (b : Bool) : optionsEqual l l b = true := by
  have hrefl : ∀ o ∈ l, ∀ b2, _optionEquals o o b2 = true := fun o ho b2 =>
    optionEquals_refl_aux (sizeOf o) o le_rfl (wfOptions_mem l o hwf ho) b2
  rw [optionsEqual_def]
  cases b with
  | true => simp [optionsEqualStrict_refl_of l fun o ho => hrefl o ho true]
  | false =>
    simp [optionsEqualByName_of l l fun o ho => ⟨mapGetOpt_self ho hnd, hrefl o ho false⟩]

/-- The order-insensitive list comparison accepts any permutation of a
well-formed, uniquely named option list. -/
theorem optionsEqual_perm (l l2 : List RawOption) (hperm : l.Perm l2)
    (hwf : wfOptions l = true) (hnd : (l.map RawOption.name).Nodup) :
    optionsEqual l l2 false = true := by
  have hnd2 : (l2.map RawOption.name).Nodup := (hperm.map RawOption.name).nodup_iff.mp hnd
  have hrefl : ∀ o ∈ l, _optionEquals o o false = true := fun o ho =>
    optionEquals_refl_aux (sizeOf o) o le_rfl (wfOptions_mem l o hwf ho) false
  rw [optionsEqual_def]
  have hby := optionsEqualByName_of l l2 fun o ho =>
    ⟨mapGetOpt_self (hperm.subset ho) hnd2, hrefl o ho⟩
  simp [hperm.length_eq, hby]

/-- The order-sensitive list comparison rejects any proper permutation of a
uniquely named option list. -/
theorem optionsEqual_perm_strict (l l2 : List RawOption) (hperm : l.Perm l2)
    (hnd : (l.map RawOption.name).Nodup) (hne : l2 ≠ l) :
    optionsEqual l l2 true = false := by
  by_contra h
  rw [Bool.not_eq_false] at h
  rw [optionsEqual_def] at h
  simp [hperm.length_eq] at h
  have hnames := optionsEqualStrict_names l l2 h hperm.length_eq
  exact hne (eq_of_perm_names l l2 hperm hnd hnames)

/-- Candidate data equal to a command except for an arbitrary top-level
option list (used to compare a command against reorderings of itself). -/
def dataWithOptions (c : Command) (l : List RawOption) : CmdData :=
  { Command.toData c with options := some l }

/-- Evaluation of the top-level comparison of a command against itself with
a substituted option list of the same length: every top-level check passes
and the comparison reduces to `optionsEqual`. -/
theorem equals_eval (c : Command) (opts2 : List RawOption) (b : Bool)
    (hdp : c.defaultPermission.isSome = true) (hlen : opts2.length = c.options.length) :
    Command.equals c (dataWithOptions c opts2) b = optionsEqual c.options opts2 b := by
  obtain ⟨b0, hb0⟩ := Option.isSome_iff_exists.mp hdp
  unfold Command.equals dataWithOptions Command.toData
  cases hct : c.type with
  | none => simp [resolveCmdTag, hb0, hlen, orElse_some]
  | some ct => simp [resolveCmdTag, hb0, hct, hlen, orElse_some]

/-- One-step equation of the plain-path loop on a non-empty token list. -/
theorem slashLoopTop_cons (cmd : Command) (v : String) (rest : List String) (i : Nat) :
    slashLoopTop cmd (v :: rest) i =
      (match cmd.options[i]? with
       | none => slashLoopTop cmd rest (i + 1)
       | some opt =>
         match resolveOptionValue false opt v with
         | .error e => .error e
         | .ok value =>
           match slashLoopTop cmd rest (i + 1) with
           | .error e => .error e
           | .ok tail => .ok (.leaf (tagLookup opt.type) opt.name value :: tail)) := rfl

/-- One-step equation of the subcommand-path loop on a non-empty token
list. -/
theorem slashLoopSub_cons (sc : RawOption) (v : String) (rest : List String) (i : Nat) :
    slashLoopSub sc (v :: rest) i =
      (match sc.options with
       | some so =>
         match so[i]? with
         | none => slashLoopSub sc rest (i + 1)
         | some opt =>
           if v = "" then slashLoopSub sc rest (i + 1)
           else
             match resolveOptionValue true opt v with
             | .error e => .error e
             | .ok value =>
               match slashLoopSub sc rest (i + 1) with
               | .error e => .error e
               | .ok tail => .ok (.leaf (tagLookup opt.type) opt.name value :: tail)
       | none =>
         if v = "" then slashLoopSub sc rest (i + 1)
         else .error (.typeError "Cannot read properties of undefined (reading type)")) := rfl

/-- One step of the plain-path loop at a position whose option declares a
non-empty choice list and whose token resolves to a choice: the emitted
entry carries the matched value when truthy, the coerced raw token
otherwise. -/
theorem slashLoopTop_choice_step (cmd : Command) (v : String) (rest : List String)
    (i : Nat) (opt : RawOption) (cs : List Choice) (c : Choice)
    (hopt : cmd.options[i]? = some opt) (hcs : opt.choices = some cs)
    (hlen : 0 < cs.length) (hm : matchChoice cs v = some c) :
    slashLoopTop cmd (v :: rest) i =
      (slashLoopTop cmd rest (i + 1)).map
        (fun tail => .leaf (tagLookup opt.type) opt.name
          (if c.value.truthy then c.value else coerceValue opt.type v) :: tail) := by
  rw [slashLoopTop_cons, hopt]
  unfold resolveOptionValue
  simp only [hcs, gt_iff_lt, hlen, if_true, hm]
  cases slashLoopTop cmd rest (i + 1) <;> rfl

/-- One step of the plain-path loop at a position whose option declares a
non-empty choice list and whose token matches no choice: the run aborts
with the fatal error enumerating the valid choices. -/
theorem slashLoopTop_choice_fail (cmd : Command) (v : String) (rest : List String)
    (i : Nat) (opt : RawOption) (cs : List Choice)
    (hopt : cmd.options[i]? = some opt) (hcs : opt.choices = some cs)
    (hlen : 0 < cs.length) (hm : matchChoice cs v = none) :
    slashLoopTop cmd (v :: rest) i = .error (.error (choiceErrMsg false v cs)) := by
  rw [slashLoopTop_cons, hopt]
  unfold resolveOptionValue
  simp only [hcs, gt_iff_lt, hlen, if_true, hm]

/-- One step of the subcommand-path loop, same choice discipline, for a
non-empty token. -/
theorem slashLoopSub_choice_step (sc : RawOption) (v : String) (rest : List String)
    (i : Nat) (so : List RawOption) (opt : RawOption) (cs : List Choice) (c : Choice)
    (hso : sc.options = some so) (hopt : so[i]? = some opt) (hv : v ≠ "")
    (hcs : opt.choices = some cs) (hlen : 0 < cs.length) (hm : matchChoice cs v = some c) :
    slashLoopSub sc (v :: rest) i =
      (slashLoopSub sc rest (i + 1)).map
        (fun tail => .leaf (tagLookup opt.type) opt.name
          (if c.value.truthy then c.value else coerceValue opt.type v) :: tail) := by
  rw [slashLoopSub_cons, hso]
  simp only [hopt]
  rw [if_neg hv]
  unfold resolveOptionValue
  simp only [hcs, gt_iff_lt, hlen, if_true, hm]
  cases slashLoopSub sc rest (i + 1) <;> rfl

/-- One failing step of the subcommand-path loop on an unresolvable token
against a non-empty choice list. -/
theorem slashLoopSub_choice_fail (sc : RawOption) (v : String) (rest : List String)
    (i : Nat) (so : List RawOption) (opt : RawOption) (cs : List Choice)
    (hso : sc.options = some so) (hopt : so[i]? = some opt) (hv : v ≠ "")
    (hcs : opt.choices = some cs) (hlen : 0 < cs.length) (hm : matchChoice cs v = none) :
    slashLoopSub sc (v :: rest) i = .error (.error (choiceErrMsg true v cs)) := by
  rw [slashLoopSub_cons, hso]
  simp only [hopt]
  rw [if_neg hv]
  unfold resolveOptionValue
  simp only [hcs, gt_iff_lt, hlen, if_true, hm]

/-- Choice resolution tries the name match first: a choice found by name
decides the resolution. -/
theorem matchChoice_name_first (cs : List Choice) (v : String) (c : Choice)
    (h : cs.find? (fun x => x.name = v) = some c) : matchChoice cs v = some c := by
  unfold matchChoice
  rw [h, orElse_some]

/-- Choice resolution falls back to the value match when no name matches. -/
theorem matchChoice_value_fallback (cs : List Choice) (v : String)
    (h : cs.find? (fun x => x.name = v) = none) :
    matchChoice cs v = cs.find? fun x => jsLooseEqValStr x.value v := by
  unfold matchChoice
  rw [h, orElse_none_left]

/-- An empty-string token in the subcommand path is skipped: it consumes its
position and the run continues exactly as on the remaining tokens. -/
theorem slashLoopSub_empty_skip (sc : RawOption) (rest : List String) (i : Nat) :
    slashLoopSub sc ("" :: rest) i = slashLoopSub sc rest (i + 1) := by
  rw [slashLoopSub_cons]
  split
  · split
    · rfl
    · simp
  · simp

/-- State of the caller-supplied token array after a call: the subcommand
path of a chat-input run removes the first element (`options.shift()`); any
other run leaves the array untouched. -/
theorem sendSlashCommand_tokens (cmd : Command) (msg : Msg) (tokens : List String) :
    (sendSlashCommand cmd msg tokens).2 =
      if cmd.type = some CommandType.CHAT_INPUT ∧ subCommandCheck cmd = true
      then tokens.tail else tokens := by
  unfold sendSlashCommand
  by_cases h1 : cmd.type = some CommandType.CHAT_INPUT
  · by_cases h2 : subCommandCheck cmd = true
    · rw [if_neg (by simpa using h1), if_pos h2, if_pos ⟨h1, h2⟩]
    · rw [if_neg (by simpa using h1), if_neg (by simpa using h2),
        if_neg (by simp [h2])]
  · rw [if_pos (by simpa using h1), if_neg (by simp [h1])]

/-- A posted plain-path run implies the post-loop required check at the
token count failed to fire. -/
theorem slash_posted_top (cmd : Command) (msg : Msg) (tokens : List String)
    (body : SlashBody) (rest2 : List String)
    (h : sendSlashCommand cmd msg tokens = (.posted body, rest2))
    (hsub : subCommandCheck cmd = false) :
    requiredMissingTop cmd tokens.length = false := by
  unfold sendSlashCommand at h
  by_cases h1 : cmd.type = some CommandType.CHAT_INPUT
  · rw [if_neg (by simpa using h1), if_neg (by simp [hsub])] at h
    have hout : slashTopOutcome cmd msg tokens = .posted body := congrArg Prod.fst h
    unfold slashTopOutcome at hout
    cases hl : slashLoopTop cmd tokens 0 with
    | error e => rw [hl] at hout; exact absurd hout (by simp)
    | ok fmt =>
      rw [hl] at hout
      by_cases hr : requiredMissingTop cmd tokens.length = true
      · simp [hr] at hout
      · simpa using hr
  · rw [if_pos (by simpa using h1)] at h
    exact absurd (congrArg Prod.fst h) (by simp)

/-- A posted subcommand-path run implies the post-loop required check on the
selected node at the count of remaining tokens failed to fire. -/
theorem slash_posted_sub (cmd : Command) (msg : Msg) (t : String) (ts : List String)
    (body : SlashBody) (rest2 : List String) (sc : RawOption)
    (h : sendSlashCommand cmd msg (t :: ts) = (.posted body, rest2))
    (hsub : subCommandCheck cmd = true)
    (hfind : cmd.options.find? (fun o => o.name = t) = some sc) :
    requiredMissingSub sc ts.length = false := by
  unfold sendSlashCommand at h
  by_cases h1 : cmd.type = some CommandType.CHAT_INPUT
  · rw [if_neg (by simpa using h1), if_pos hsub] at h
    have hout := congrArg Prod.fst h
    simp only [List.tail_cons] at hout
    have hfs : findSubCommand cmd (t :: ts) = some sc := by
      unfold findSubCommand
      simpa using hfind
    rw [hfs] at hout
    unfold slashSubOutcome at hout
    replace hout :
        (match slashLoopSub sc ts 0 with
         | .error e => SlashResult.thrown e
         | .ok fmt =>
           if requiredMissingSub sc ts.length then
             SlashResult.thrown (.error "Value required missing")
           else
             SlashResult.posted
               (mkSlashBody cmd msg [.sub (tagLookup sc.type) sc.name fmt]))
          = SlashResult.posted body := hout
    cases hl : slashLoopSub sc ts 0 with
    | error e => rw [hl] at hout; exact absurd hout (by simp)
    | ok fmt =>
      rw [hl] at hout
      by_cases hr : requiredMissingSub sc ts.length = true
      · simp [hr] at hout
      · simpa using hr
  · rw [if_pos (by simpa using h1)] at h
    exact absurd (congrArg Prod.fst h) (by simp)

/-- With no tokens at all, a chat-input plain-path command whose first
option is required fails with the missing-required error. -/
theorem slash_empty_required (cmd : Command) (msg : Msg)
    (h1 : cmd.type = some CommandType.CHAT_INPUT) (hsub : subCommandCheck cmd = false)
    (hreq : requiredMissingTop cmd 0 = true) :
    (sendSlashCommand cmd msg []).1 = .thrown (.error "Value required missing") := by
  unfold sendSlashCommand
  rw [if_neg (by simpa using h1), if_neg (by simp [hsub])]
  unfold slashTopOutcome
  have hl : slashLoopTop cmd [] 0 = .ok [] := rfl
  rw [hl]
  simp only [List.length_nil, hreq, if_true]

/-- Required `STRING` option fixture for the required-enforcement example. -/
def aOpt : RawOption :=
  .mk (.sym .STRING) "a" "a value" (some true) none none none none none none none none none

/-- Command with top-level options `[(name a, STRING, required)]`. -/
def c4cmd : Command :=
  ⟨"20", "99", "7", "cfg", "configure", some .CHAT_INPUT, [aOpt], some true, some "sess"⟩

/-- Choice fixture of the spec: name `five`, value `"5"`. -/
def fiveChoice : Choice := ⟨"five", .str "5"⟩

/-- Option declaring the single choice `fiveChoice`. -/
def fiveOpt : RawOption :=
  .mk (.sym .STRING) "pick" "pick one" (some false) none (some [fiveChoice])
    none none none none none none none

/-- Command carrying `fiveOpt` as its only top-level option. -/
def fiveCmd : Command :=
  ⟨"30", "99", "7", "pickcmd", "choose", some .CHAT_INPUT, [fiveOpt], some true, some "sess"⟩

/-- Choice whose value is the empty string (falsy). -/
def emptyChoice : Choice := ⟨"e", .str ""⟩

/-- Option declaring one choice with a falsy (empty-string) value. -/
def emptyValOpt : RawOption :=
  .mk (.sym .STRING) "opt" "empty-valued choice" (some false) none (some [emptyChoice])
    none none none none none none none

/-- Command carrying `emptyValOpt` as its only top-level option. -/
def emptyValCmd : Command :=
  ⟨"31", "99", "7", "emptycmd", "d", some .CHAT_INPUT, [emptyValOpt], some true, some "sess"⟩

/-- User-targeting (USER kind) context-menu command fixture. -/
def userCmd : Command :=
  ⟨"40", "99", "7", "Report User", "", some .USER, [], some true, some "sess"⟩

/-- Command whose wire data never carried `default_permission`: the
receiver-side flag is absent. -/
def c8cmd : Command :=
  ⟨"50", "99", "7", "legacy", "no dp", some .CHAT_INPUT, [], none, some "sess"⟩

/-- Nested wire option fixture for the round-trip witness. -/
def w5sub : RawOption :=
  .mk (.code 3) "s" "a string" (some true) none (some [⟨"x", .str "y"⟩])
    none none none none none none none

/-- Wire option fixture: channel type with a numeric channel-type filter, a
numeric bound in wire spelling, and one nested option. -/
def w5 : RawOption :=
  .mk (.code 7) "chan" "a channel" none (some false) none (some [w5sub])
    none (some [.code 0, .code 2]) none (some 1) none (some 10)

/-- C1: the claim says a user-targeting context command encodes `target_id`
as the referenced user's id; the code compares
`ApplicationCommandTypes[this.type] == 1`, but 1 is the chat-input code,
which the guard has already excluded, so a USER-kind command (code 2) sends
the message id instead of the author id. This theorem evaluates the
embedded code at the failing input: the posted `target_id` is the message
id `"100"`, not the author id `"200"`. -/
theorem C1_user_target_bug :
    sendContextMenu userCmd theMsg =
      .posted
        { type := 2, application_id := "99", guild_id := some "300", channel_id := "400",
          session_id := some "sess", version := "7", id := "40", name := "Report User",
          dataType := some 2, target_id := "100" }
    ∧ theMsg.id = "100" ∧ theMsg.authorId = "200" ∧ ("100" : String) ≠ "200" :=
  ⟨rfl, rfl, rfl, by decide⟩

/-- C2 counterexample: the token `e` resolves (by name) to the declared
choice whose value is the empty string, yet the emitted entry carries the
coerced raw token `e`, not the resolved choice's value `""` — because the
source computes `choice?.value || coercion` and the empty string is falsy.
This refutes the claim that the resolved choice's value appears verbatim
regardless of the declared type. -/
theorem C2_counterexample :
    emptyValOpt.choices = some [⟨"e", .str ""⟩]
    ∧ sendSlashCommand emptyValCmd theMsg ["e"]
        = (.posted (mkSlashBody emptyValCmd theMsg [.leaf (.code 3) "opt" (.str "e")]), ["e"])
    ∧ (JSVal.str "e") ≠ (JSVal.str "") :=
  ⟨rfl, rfl, by decide⟩

/-- C2 (amended): for every encoding step whose option declares a non-empty
choice list, the token is resolved by match against choice names first and
choice values second; the resolved choice's value appears in the emitted
entry when it is truthy, while a falsy matched value is discarded in favour
of the type-coerced raw token; and a token matching no choice name or value
raises the fatal error enumerating the valid choices. Stated for both the
plain path and the subcommand path (where the step presupposes a non-empty
token), plus the value-fallback example of the spec. -/
theorem C2_amended_choice_resolution :
    (∀ (cs : List Choice) (v : String) (c : Choice),
       cs.find? (fun x => x.name = v) = some c → matchChoice cs v = some c)
    ∧ (∀ (cs : List Choice) (v : String),
        cs.find? (fun x => x.name = v) = none →
        matchChoice cs v = cs.find? fun x => jsLooseEqValStr x.value v)
    ∧ (∀ (cmd : Command) (v : String) (rest : List String) (i : Nat) (opt : RawOption)
         (cs : List Choice) (c : Choice),
        cmd.options[i]? = some opt → opt.choices = some cs → 0 < cs.length →
        matchChoice cs v = some c →
        slashLoopTop cmd (v :: rest) i =
          (slashLoopTop cmd rest (i + 1)).map
            (fun tail => .leaf (tagLookup opt.type) opt.name
              (if c.value.truthy then c.value else coerceValue opt.type v) :: tail))
    ∧ (∀ (cmd : Command) (v : String) (rest : List String) (i : Nat) (opt : RawOption)
         (cs : List Choice),
        cmd.options[i]? = some opt → opt.choices = some cs → 0 < cs.length →
        matchChoice cs v = none →
        slashLoopTop cmd (v :: rest) i = .error (.error (choiceErrMsg false v cs)))
    ∧ (∀ (sc : RawOption) (v : String) (rest : List String) (i : Nat)
         (so : List RawOption) (opt : RawOption) (cs : List Choice) (c : Choice),
        sc.options = some so → so[i]? = some opt → v ≠ "" →
        opt.choices = some cs → 0 < cs.length → matchChoice cs v = some c →
        slashLoopSub sc (v :: rest) i =
          (slashLoopSub sc rest (i + 1)).map
            (fun tail => .leaf (tagLookup opt.type) opt.name
              (if c.value.truthy then c.value else coerceValue opt.type v) :: tail))
    ∧ (∀ (sc : RawOption) (v : String) (rest : List String) (i : Nat)
         (so : List RawOption) (opt : RawOption) (cs : List Choice),
        sc.options = some so → so[i]? = some opt → v ≠ "" →
        opt.choices = some cs → 0 < cs.length → matchChoice cs v = none →
        slashLoopSub sc (v :: rest) i = .error (.error (choiceErrMsg true v cs)))
    ∧ matchChoice [fiveChoice] "5" = some fiveChoice
    ∧ sendSlashCommand fiveCmd theMsg ["5"]
        = (.posted (mkSlashBody fiveCmd theMsg [.leaf (.code 3) "pick" (.str "5")]), ["5"]) :=
  ⟨matchChoice_name_first, matchChoice_value_fallback, slashLoopTop_choice_step,
   slashLoopTop_choice_fail, slashLoopSub_choice_step, slashLoopSub_choice_fail, rfl, rfl⟩

/-- C2 witness: the amended theorem applied at the value-fallback example:
token `5` against the single choice named `five` with value `"5"`. -/
theorem C2_amended_witness :
    matchChoice [fiveChoice] "5" = some fiveChoice ∧
    slashLoopTop fiveCmd ["5"] 0 =
      (slashLoopTop fiveCmd [] 1).map
        (fun tail => .leaf (.code 3) "pick" (.str "5") :: tail) :=
  ⟨rfl,
   C2_amended_choice_resolution.2.2.1 fiveCmd "5" [] 0 fiveOpt [fiveChoice] fiveChoice
     rfl rfl (by decide) rfl⟩

/-- C3: for a chat-input command whose top-level options are routing nodes,
the first token selects the top-level option of exactly that name, the
remaining tokens are encoded against the selected node's nested option
list, and the result is wrapped in one outer entry carrying the
subcommand's own type and name; a first token matching no name is a fatal
error (the implicit TypeError of the undefined `subCommand.type` access).
Includes the concrete example of the spec. -/
theorem C3_subcommand_routing :
    (∀ (cmd : Command) (msg : Msg) (t : String) (ts : List String),
       cmd.type = some CommandType.CHAT_INPUT → subCommandCheck cmd = true →
       cmd.options.find? (fun o => o.name = t) = none →
       (sendSlashCommand cmd msg (t :: ts)).1 =
         .thrown (.typeError "Cannot read properties of undefined (reading type)"))
    ∧ (∀ (cmd : Command) (msg : Msg) (t : String) (ts : List String) (sc : RawOption)
         (body : SlashBody) (rest2 : List String),
        subCommandCheck cmd = true →
        cmd.options.find? (fun o => o.name = t) = some sc →
        sendSlashCommand cmd msg (t :: ts) = (.posted body, rest2) →
        ∃ fmt, slashLoopSub sc ts 0 = .ok fmt ∧
          body.options = [.sub (tagLookup sc.type) sc.name fmt])
    ∧ sendSlashCommand subCmd theMsg ["add", "12345"]
        = (.posted (mkSlashBody subCmd theMsg
            [.sub (.code 1) "add" [.leaf (.code 3) "role" (.str "12345")]]), ["12345"])
    ∧ (sendSlashCommand subCmd theMsg ["bogus", "12345"]).1
        = .thrown (.typeError "Cannot read properties of undefined (reading type)") := by
  refine ⟨?_, ?_, rfl, rfl⟩
  · intro cmd msg t ts h1 hsub hfind
    unfold sendSlashCommand
    rw [if_neg (by simpa using h1), if_pos hsub]
    have hfs : findSubCommand cmd (t :: ts) = none := by
      unfold findSubCommand
      simpa using hfind
    rw [hfs]
    rfl
  · intro cmd msg t ts sc body rest2 hsub hfind h
    unfold sendSlashCommand at h
    by_cases h1 : cmd.type = some CommandType.CHAT_INPUT
    · rw [if_neg (by simpa using h1), if_pos hsub] at h
      have hout := congrArg Prod.fst h
      simp only [List.tail_cons] at hout
      have hfs : findSubCommand cmd (t :: ts) = some sc := by
        unfold findSubCommand
        simpa using hfind
      rw [hfs] at hout
      unfold slashSubOutcome at hout
      replace hout :
          (match slashLoopSub sc ts 0 with
           | .error e => SlashResult.thrown e
           | .ok fmt =>
             if requiredMissingSub sc ts.length then
               SlashResult.thrown (.error "Value required missing")
             else
               SlashResult.posted
                 (mkSlashBody cmd msg [.sub (tagLookup sc.type) sc.name fmt]))
            = SlashResult.posted body := hout
      cases hl : slashLoopSub sc ts 0 with
      | error e => rw [hl] at hout; exact absurd hout (by simp)
      | ok fmt =>
        rw [hl] at hout
        replace hout :
            (if requiredMissingSub sc ts.length then
               SlashResult.thrown (.error "Value required missing")
             else
               SlashResult.posted
                 (mkSlashBody cmd msg [.sub (tagLookup sc.type) sc.name fmt]))
              = SlashResult.posted body := hout
        by_cases hr : requiredMissingSub sc ts.length = true
        · rw [if_pos (by simpa using hr)] at hout
          exact absurd hout (by simp)
        · rw [if_neg (by simpa using hr)] at hout
          refine ⟨fmt, rfl, ?_⟩
          have hb : mkSlashBody cmd msg [.sub (tagLookup sc.type) sc.name fmt] = body := by
            injection hout
          rw [hb.symm]
          rfl
    · rw [if_pos (by simpa using h1)] at h
      exact absurd (congrArg Prod.fst h) (by simp)

/-- C3 witness: the general routing conjunct applied at the example command
and the token list of the spec, with the nested list made concrete. -/
theorem C3_witness :
    slashLoopSub addSub ["12345"] 0 = .ok [.leaf (.code 3) "role" (.str "12345")]
    ∧ (mkSlashBody subCmd theMsg
        [.sub (.code 1) "add" [.leaf (.code 3) "role" (.str "12345")]]).options
      = [.sub (tagLookup addSub.type) addSub.name [.leaf (.code 3) "role" (.str "12345")]] := by
  obtain ⟨fmt, h1, h2⟩ :=
    C3_subcommand_routing.2.1 subCmd theMsg "add" ["12345"] addSub
      (mkSlashBody subCmd theMsg [.sub (.code 1) "add" [.leaf (.code 3) "role" (.str "12345")]])
      ["12345"] rfl rfl rfl
  have h0 : slashLoopSub addSub ["12345"] 0 = .ok [.leaf (.code 3) "role" (.str "12345")] := rfl
  rw [h0] at h1
  injection h1 with hfmt
  subst hfmt
  exact ⟨h0, h2⟩

/-- C4: after all tokens are consumed, a present-and-required option at the
next unconsumed position is a fatal missing-required error: a posted run
implies the check at that position failed (both scopes), an empty token
list against a required first option throws, and the concrete pair of the
spec behaves as stated. -/
theorem C4_required_enforcement :
    (∀ (cmd : Command) (msg : Msg) (tokens : List String) (body : SlashBody)
       (rest2 : List String),
       sendSlashCommand cmd msg tokens = (.posted body, rest2) →
       subCommandCheck cmd = false →
       requiredMissingTop cmd tokens.length = false)
    ∧ (∀ (cmd : Command) (msg : Msg) (t : String) (ts : List String) (body : SlashBody)
         (rest2 : List String) (sc : RawOption),
        sendSlashCommand cmd msg (t :: ts) = (.posted body, rest2) →
        subCommandCheck cmd = true →
        cmd.options.find? (fun o => o.name = t) = some sc →
        requiredMissingSub sc ts.length = false)
    ∧ (∀ (cmd : Command) (msg : Msg),
        cmd.type = some CommandType.CHAT_INPUT → subCommandCheck cmd = false →
        requiredMissingTop cmd 0 = true →
        (sendSlashCommand cmd msg []).1 = .thrown (.error "Value required missing"))
    ∧ (sendSlashCommand c4cmd theMsg []).1 = .thrown (.error "Value required missing")
    ∧ sendSlashCommand c4cmd theMsg ["x"]
        = (.posted (mkSlashBody c4cmd theMsg [.leaf (.code 3) "a" (.str "x")]), ["x"]) :=
  ⟨fun cmd msg tokens body rest2 h hs => slash_posted_top cmd msg tokens body rest2 h hs,
   fun cmd msg t ts body rest2 sc h hs hf => slash_posted_sub cmd msg t ts body rest2 sc h hs hf,
   fun cmd msg h1 hs hr => slash_empty_required cmd msg h1 hs hr,
   rfl, rfl⟩

/-- C4 witness: the general conjuncts applied at the concrete command: the
successful run with one token implies no required option at position 1, and
the empty run throws. -/
theorem C4_witness :
    requiredMissingTop c4cmd 1 = false ∧
    (sendSlashCommand c4cmd theMsg []).1 = .thrown (.error "Value required missing") :=
  ⟨C4_required_enforcement.1 c4cmd theMsg ["x"]
     (mkSlashBody c4cmd theMsg [.leaf (.code 3) "a" (.str "x")]) ["x"] rfl rfl,
   C4_required_enforcement.2.2.1 c4cmd theMsg rfl rfl rfl⟩

/-- C5: for every well-formed wire option, transforming to the model shape
(`received = true`) and back (`received = false`) yields the original
option field for field after filling the `required` default, including the
integer-to-symbolic type mapping and the `channel_types`/`channelTypes`,
`min_value`/`minValue`, `max_value`/`maxValue` spelling duality. -/
theorem C5_transform_roundtrip (w : RawOption) (h : wfWire w = true) :
    transformOption (transformOption w true) false = normalizeWire w :=
  roundtripAux (sizeOf w) w le_rfl h

/-- C5 witness: the round trip evaluated on a concrete wire option with a
numeric type code, a numeric channel-type filter, a wire-spelled bound, a
choice list and a nested option. -/
theorem C5_witness :
    wfWire w5 = true ∧ transformOption (transformOption w5 true) false = normalizeWire w5 :=
  ⟨rfl, C5_transform_roundtrip w5 rfl⟩

/-- C6: permuting the uniquely named top-level options of a well-formed
command is invisible to the order-insensitive comparison, and any proper
reordering is rejected by the order-sensitive comparison. -/
theorem C6_order_insensitivity (c : Command) (opts2 : List RawOption)
    (hwf : wfCommand c = true) (hperm : c.options.Perm opts2) :
    Command.equals c (dataWithOptions c opts2) false = true
    ∧ (opts2 ≠ c.options → Command.equals c (dataWithOptions c opts2) true = false) := by
  unfold wfCommand at hwf
  simp only [Bool.and_eq_true] at hwf
  obtain ⟨⟨hdp, hwfopts⟩, hndb⟩ := hwf
  have hnd := (strNodup_iff _).mp hndb
  constructor
  · rw [equals_eval c opts2 false hdp hperm.length_eq.symm]
    exact optionsEqual_perm _ _ hperm hwfopts hnd
  · intro hne
    rw [equals_eval c opts2 true hdp hperm.length_eq.symm]
    exact optionsEqual_perm_strict _ _ hperm hnd hne

/-- C6 witness: the theorem applied to the two-subcommand example command
and the transposition of its options. -/
theorem C6_witness :
    Command.equals subCmd (dataWithOptions subCmd [removeSub, addSub]) false = true
    ∧ Command.equals subCmd (dataWithOptions subCmd [removeSub, addSub]) true = false := by
  have hperm : subCmd.options.Perm [removeSub, addSub] := List.Perm.swap removeSub addSub []
  have h := C6_order_insensitivity subCmd [removeSub, addSub] rfl hperm
  exact ⟨h.1, h.2 (by simp [subCmd, addSub, removeSub, RawOption.mk.injEq])⟩

/-- C7: the equality engine accepts a well-formed command compared with
itself (the instance passed as the candidate) under both order policies. -/
theorem C7_equals_refl (c : Command) (b : Bool) (hwf : wfCommand c = true) :
    Command.equals c (Command.toData c) b = true := by
  unfold wfCommand at hwf
  simp only [Bool.and_eq_true] at hwf
  obtain ⟨⟨hdp, hwfopts⟩, hndb⟩ := hwf
  have hnd := (strNodup_iff _).mp hndb
  rw [show Command.toData c = dataWithOptions c c.options from rfl]
  rw [equals_eval c c.options b hdp rfl]
  exact optionsEqual_refl _ hwfopts hnd b

/-- C7 witness: reflexivity at the concrete two-subcommand command for both
order policies. -/
theorem C7_witness :
    Command.equals subCmd (Command.toData subCmd) true = true
    ∧ Command.equals subCmd (Command.toData subCmd) false = true :=
  ⟨C7_equals_refl subCmd true rfl, C7_equals_refl subCmd false rfl⟩

/-- Evaluation of the comparison of a well-formed command against its own
data with the default-enabled flag removed on the candidate side: the
candidate-side `?? true` defaulting makes every top-level check pass when
the receiver flag is explicitly `true`. -/
theorem equals_eval_nodp (c : Command) (b : Bool)
    (hdp : c.defaultPermission = some true) :
    Command.equals c { Command.toData c with defaultPermission := none } b
      = optionsEqual c.options c.options b := by
  unfold Command.equals Command.toData
  cases hct : c.type with
  | none => simp [resolveCmdTag, hdp, orElse_none_left]
  | some ct => simp [resolveCmdTag, hdp, hct, orElse_none_left]

/-- C8 counterexample: a command whose own default-enabled flag is absent is
unequal to identical candidate data carrying the flag explicitly `true`,
because the `?? true` defaulting is applied to the candidate side only —
refuting the claim that absence is treated as `true` regardless of which
argument position carries it. -/
theorem C8_counterexample :
    c8cmd.defaultPermission = none
    ∧ Command.equals c8cmd
        { Command.toData c8cmd with defaultPermission := some true } false = false :=
  ⟨rfl, rfl⟩

/-- C8 (amended): the default-enabled flag is compared with the absence
default applied to the candidate side only: an absent candidate flag is
treated as `true`, so a well-formed command with an explicit `true` flag
equals its own data with the flag removed, for both order policies; while a
receiver whose flag is absent is never equal to a candidate with an
explicit `true` flag. -/
theorem C8_amended_default_permission :
    (∀ (c : Command) (b : Bool), wfCommand c = true → c.defaultPermission = some true →
       Command.equals c { Command.toData c with defaultPermission := none } b = true)
    ∧ (∀ (c : Command) (d : CmdData) (b : Bool), c.defaultPermission = none →
        d.defaultPermission = some true → Command.equals c d b = false) := by
  constructor
  · intro c b hwf hdp
    unfold wfCommand at hwf
    simp only [Bool.and_eq_true] at hwf
    obtain ⟨⟨_, hwfopts⟩, hndb⟩ := hwf
    rw [equals_eval_nodp c b hdp]
    exact optionsEqual_refl _ hwfopts ((strNodup_iff _).mp hndb) b
  · intro c d b hc hd
    unfold Command.equals
    simp [hc, hd, orElse_some]

/-- C8 witness: the amended claim applied at the concrete command with an
explicit `true` flag and at a concrete flagless receiver. -/
theorem C8_witness :
    Command.equals subCmd { Command.toData subCmd with defaultPermission := none } false = true
    ∧ Command.equals c8cmd
        { Command.toData c8cmd with defaultPermission := some true } true = false :=
  ⟨C8_amended_default_permission.1 subCmd false rfl rfl,
   C8_amended_default_permission.2 c8cmd
     { Command.toData c8cmd with defaultPermission := some true } true rfl rfl⟩

/-- C9 counterexample: in the subcommand-routed path the caller-supplied
token array does not keep its elements — `options.shift()` removes the
first one, so after the call the array is the tail of the original. -/
theorem C9_counterexample :
    (sendSlashCommand subCmd theMsg ["add", "12345"]).2 = ["12345"]
    ∧ (["12345"] : List String) ≠ ["add", "12345"] :=
  ⟨rfl, by decide⟩

/-- C9 (amended): the encoder reads the command schema without mutating it
(the embedding is pure in the schema) and allocates a fresh output body,
but the caller-supplied token array is left unchanged only outside the
subcommand-routed chat-input path; on that path the call removes the first
element (`options.shift()`) and leaves exactly the tail. -/
theorem C9_amended_token_frame (cmd : Command) (msg : Msg) (tokens : List String) :
    (sendSlashCommand cmd msg tokens).2 =
      if cmd.type = some CommandType.CHAT_INPUT ∧ subCommandCheck cmd = true
      then tokens.tail else tokens :=
  sendSlashCommand_tokens cmd msg tokens

/-- C10: in the subcommand-routed path an empty-string token is silently
skipped — it consumes its option position and the run continues exactly as
on the remaining tokens, with no emitted entry and no error, even when the
option at that position is required: the concrete run against the required
`role` option posts a wrapper with an empty nested option list. -/
theorem C10_empty_token_skip :
    (∀ (sc : RawOption) (rest : List String) (i : Nat),
       slashLoopSub sc ("" :: rest) i = slashLoopSub sc rest (i + 1))
    ∧ sendSlashCommand subCmd theMsg ["add", ""]
        = (.posted (mkSlashBody subCmd theMsg [.sub (.code 1) "add" []]), [""])
    ∧ roleOpt.required = some true
    ∧ addSub.options = some [roleOpt] :=
  ⟨slashLoopSub_empty_skip, rfl, rfl, rfl⟩

end DJS
